import Mathlib

/-!
Shallow embedding of the MONATYC/ean_tienda repository (src/ean_creator.py,
src/app.py, src/unique_codes.py).  Python strings are modelled as `List Char`,
pandas string columns as `List (Option (List Char))` (a `none` entry models a
missing/NaN cell).  Fallible Python code (raise / except) is modelled with
`Except`.
-/

namespace EanTienda

/-- Numeric value of an ASCII digit character. -/
def digitVal (c : Char) : Nat := c.toNat - 48

/-- The ASCII digit character for `d % 10` (the single-digit formatter used by
`f-string` style zero padded formatting below). -/
def digitChar (d : Nat) : Char :=
  match d % 10 with
  | 0 => '0' | 1 => '1' | 2 => '2' | 3 => '3' | 4 => '4'
  | 5 => '5' | 6 => '6' | 7 => '7' | 8 => '8' | _ => '9'

/-- Decimal value of a digit string (most significant first), as parsed by
`int(...)` / `pd.to_numeric` on an all-digit string. -/
def natOfDigits (l : List Char) : Nat := l.foldl (fun a c => 10 * a + digitVal c) 0

/-- Python `str.isdigit()` restricted to ASCII: nonempty and all characters
are `0`-`9`. -/
def isDigitStr (s : List Char) : Bool := !s.isEmpty && s.all Char.isDigit

/-- `pd.to_numeric(-, errors="coerce")` on the short slices used here: yields
the numeric value when the string is a nonempty digit string, `none` (NaN)
otherwise. -/
def toNumeric? (s : List Char) : Option Nat :=
  if isDigitStr s then some (natOfDigits s) else none

/-- `COUNTRY_PREFIX = "84370000"` (src/ean_creator.py line 85, src/app.py line 80). -/
def COUNTRY_PREFIX : List Char := ['8', '4', '3', '7', '0', '0', '0', '0']

/-- The filter of src/ean_creator.py lines 97-101: an inventory EAN entry
qualifies when it starts with `COUNTRY_PREFIX`, has length 13, and is all
digits. -/
def qualifiesPattern (s : List Char) : Bool :=
  COUNTRY_PREFIX.isPrefixOf s && s.length == 13 && isDigitStr s

/-- The `pattern_eans` dataframe of src/ean_creator.py lines 97-101: the
qualifying entries, in order; a `none` (NaN) cell is excluded by
`startswith(..., na=False)`. -/
def pattern_eans (df : List (Option (List Char))) : List (List Char) :=
  df.filterMap fun o =>
    match o with
    | none => none
    | some s => if qualifiesPattern s then some s else none

/-- `_next_sequential_number` of src/ean_creator.py lines 88-109 (the revision
implementing the prefix/well-formedness filter that §4.1 of the spec
describes): filter the qualifying EANs, slice positions [8,12), parse with
`pd.to_numeric(errors="coerce")`, drop NaNs, and return max+1 (1 when
nothing remains at any stage). -/
def next_sequential_number (df : List (Option (List Char))) : Nat :=
  if df.isEmpty then 1
  else
    let patt := pattern_eans df
    if patt.isEmpty then 1
    else
      let seq_numbers := patt.map fun s => toNumeric? ((s.drop 8).take 4)
      let valid := seq_numbers.filterMap id
      if valid.isEmpty then 1
      else valid.foldl max 0 + 1

/-- `f"{seq:04d}"` for the sequential part (src/ean_creator.py line 123).
Both call sites guard `seq ≤ 9999` before formatting, and on that domain
this agrees with Python's zero-padded width-4 formatting. -/
def format4 (n : Nat) : List Char :=
  [digitChar (n / 1000), digitChar (n / 100), digitChar (n / 10), digitChar n]

/-- Weighted digit sum used by the EAN-13 checksum: weight 1 on even
positions (0-based, from the left) and 3 on odd positions, so the rightmost
of the 12 digits gets weight 3. -/
def weightedSum : List Char → Nat → Nat
  | [], _ => 0
  | c :: rest, i => (if i % 2 == 0 then 1 else 3) * digitVal c + weightedSum rest (i + 1)

/-- Modelled from the spec: the check-digit computation of the external
python-barcode library's EAN13 class (invoked by `generate_next_ean`,
src/ean_creator.py lines 124-126, and not part of this repository):
"alternating weights 1 and 3 from the rightmost of the 12 digits,
check digit = (10 − (sum mod 10)) mod 10" (spec §3). -/
def check_digit (base : List Char) : Nat :=
  (10 - weightedSum (base.take 12) 0 % 10) % 10

/-- Modelled from the spec: `get_fullcode()` of the external python-barcode
EAN13 object built from a 12-digit base — the base with the standard check
digit appended (spec §3, §4.1). -/
def ean13_fullcode (base12 : List Char) : List Char :=
  base12 ++ [digitChar (check_digit base12)]

inductive EanError where
  | rangeExhausted
deriving DecidableEq

/-- `generate_next_ean` of src/ean_creator.py lines 112-126 (identical in
src/app.py lines 99-114): next sequence number, hard stop above 9999,
otherwise the 12-digit base `COUNTRY_PREFIX ++ seq` completed with the
library's check digit. -/
def generate_next_ean (df : List (Option (List Char))) : Except EanError (List Char) :=
  let seq := next_sequential_number df
  if seq > 9999 then .error .rangeExhausted
  else .ok (ean13_fullcode (COUNTRY_PREFIX ++ format4 seq))

/-- The full candidate code for sequence number `k` (the value
`ean_cls(base_12).get_fullcode()` of src/ean_creator.py lines 208-211). -/
def eanAt (k : Nat) : List Char := ean13_fullcode (COUNTRY_PREFIX ++ format4 k)

/-- `used_eans = set(st.session_state.df_inventory["EAN"].values)`
(src/ean_creator.py line 202): the stored EAN entries of the table. -/
def used_eans (df : List (Option (List Char))) : List (List Char) := df.filterMap id

/-- The suggestion loop of src/ean_creator.py lines 204-215, with explicit
fuel:  starting from `seq`, return the first candidate full code absent from
`used`, or `""` once `seq` exceeds 9999.  The loop runs at most
`10000 - seq + 1` iterations, so any fuel of at least 10001 is not
consumed. -/
def suggestLoop (used : List (List Char)) : Nat → Nat → List Char
  | _, 0 => []
  | seq, fuel + 1 =>
    if seq > 9999 then []
    else
      let cand := eanAt seq
      if cand ∈ used then suggestLoop used (seq + 1) fuel else cand

/-- The suggested EAN of the add-product form (src/ean_creator.py lines
201-217): empty when the inventory is empty, otherwise the suggestion loop
started at the next sequential number. -/
def suggested_ean (df : List (Option (List Char))) : List Char :=
  if df.isEmpty then []
  else suggestLoop (used_eans df) (next_sequential_number df) 10001

/-! ### src/unique_codes.py -/

/-- `string.ascii_uppercase`. -/
def asciiUppercaseL : List Char :=
  ['A', 'B', 'C', 'D', 'E', 'F', 'G', 'H', 'I', 'J', 'K', 'L', 'M',
   'N', 'O', 'P', 'Q', 'R', 'S', 'T', 'U', 'V', 'W', 'X', 'Y', 'Z']

/-- `string.digits`. -/
def digitsL : List Char := ['0', '1', '2', '3', '4', '5', '6', '7', '8', '9']

/-- `characters = string.ascii_uppercase + string.digits`
(src/unique_codes.py lines 43 and 56). -/
def charactersL : List Char := asciiUppercaseL ++ digitsL

/-- `CODE_LENGTH = 8` (src/unique_codes.py line 15). -/
def CODE_LENGTH : Nat := 8

/-- The randomness consumed by one call of `generate_random_code`
(src/unique_codes.py lines 41-48): the index of the forced uppercase letter,
the index of the forced digit, the indices drawn by `random.choices`, and
the indices drawn inside `random.shuffle`. -/
structure CodeRandom where
  letterIdx : Nat
  digitIdx : Nat
  rest : Nat → Nat
  shuffle : Nat → Nat

/-- Swap the entries at positions `i` and `j` (identity when either index is
out of range), as Python's `x[i], x[j] = x[j], x[i]`. -/
def listSwap (l : List α) (i j : Nat) : List α :=
  match l[i]?, l[j]? with
  | some a, some b => (l.set i b).set j a
  | _, _ => l

/-- The CPython Fisher–Yates loop of `random.shuffle`: for the loop variable
`i` running from `l.length - 1` down to `1`, swap position `i` with position
`r i % (i+1)` (the value of `randbelow(i+1)` is modelled as `r i % (i+1)`). -/
def shuffleSteps (r : Nat → Nat) : Nat → List α → List α
  | 0, l => l
  | c + 1, l => shuffleSteps r c (listSwap l (c + 1) (r (c + 1) % (c + 2)))

/-- `random.shuffle(code)` (src/unique_codes.py line 47). -/
def pyShuffle (r : Nat → Nat) (l : List α) : List α :=
  shuffleSteps r (l.length - 1) l

/-- `generate_random_code` (src/unique_codes.py lines 41-48): one forced
uppercase letter, one forced digit, `length - 2` uniform alphanumeric
characters, then a shuffle of the whole string. -/
def generate_random_code (rnd : CodeRandom) (len : Nat) : List Char :=
  let code := asciiUppercaseL.getD (rnd.letterIdx % 26) 'A'
      :: digitsL.getD (rnd.digitIdx % 10) '0'
      :: (List.range (len - 2)).map fun t => charactersL.getD (rnd.rest t % 36) 'A'
  pyShuffle rnd.shuffle code

inductive CodeGenError where
  | pfxTooLong
  | generationExhausted
deriving DecidableEq

/-- `generate_random_code_with_prefix` (src/unique_codes.py lines 51-61):
raises when the fixed part is longer than the requested length, otherwise
the fixed part followed by `length - |pfx|` uniform alphanumeric
characters. -/
def generate_random_code_with_pfx (pfx : List Char) (r : Nat → Nat) (len : Nat) :
    Except CodeGenError (List Char) :=
  if len < pfx.length then .error .pfxTooLong
  else .ok (pfx ++ (List.range (len - pfx.length)).map fun t => charactersL.getD (r t % 36) 'A')

/-- One candidate draw of the `get_unique_codes` loop (src/unique_codes.py
lines 77-80), using the randomness for attempt `i`. -/
def drawCandidate (manualPfx : Option (List Char)) (stream : Nat → CodeRandom) (i : Nat) :
    Except CodeGenError (List Char) :=
  match manualPfx with
  | some p => generate_random_code_with_pfx p (stream i).rest CODE_LENGTH
  | none => .ok (generate_random_code (stream i) CODE_LENGTH)

/-- Python `str.strip()` (whitespace on both ends), applied by
`df_history["Codigo_Unico"].dropna().str.strip()`. -/
def pyStrip (s : List Char) : List Char :=
  ((s.dropWhile Char.isWhitespace).reverse.dropWhile Char.isWhitespace).reverse

/-- The `existing_codes` set built at src/unique_codes.py lines 69-72:
the non-NaN history entries, stripped.  (On an empty history this is the
empty set, matching the `df_history.empty` branch.) -/
def existing_codes (df_history : List (Option (List Char))) : List (List Char) :=
  (df_history.filterMap id).map pyStrip

/-- The `while` loop of `get_unique_codes` (src/unique_codes.py lines 74-84),
with the remaining attempt budget `fuel = max_attempts - attempts` made
explicit (the loop guard `attempts < max_attempts` is `0 < fuel`): draw a
candidate, accept it when it is in neither `existing` nor `new_codes`
(adding it to both), count the attempt either way; after the loop, fail
with the exhaustion error when fewer than `num_codes` codes were found
(lines 86-90). -/
def getUniqueCodesLoop (stream : Nat → CodeRandom) (manualPfx : Option (List Char))
    (numCodes : Nat) :
    List (List Char) → List (List Char) → Nat → Nat → Except CodeGenError (List (List Char))
  | existing, newCodes, _, 0 =>
    if newCodes.length < numCodes then .error .generationExhausted else .ok newCodes
  | existing, newCodes, attempts, fuel + 1 =>
    if newCodes.length < numCodes then
      match drawCandidate manualPfx stream attempts with
      | .error e => .error e
      | .ok candidate =>
        if candidate ∉ existing ∧ candidate ∉ newCodes then
          getUniqueCodesLoop stream manualPfx numCodes (existing ++ [candidate])
            (newCodes ++ [candidate]) (attempts + 1) fuel
        else
          getUniqueCodesLoop stream manualPfx numCodes existing newCodes (attempts + 1) fuel
    else .ok newCodes

/-- `get_unique_codes` (src/unique_codes.py lines 64-91). -/
def get_unique_codes (df_history : List (Option (List Char))) (numCodes : Nat)
    (manualPfx : Option (List Char)) (stream : Nat → CodeRandom) (maxAttempts : Nat) :
    Except CodeGenError (List (List Char)) :=
  getUniqueCodesLoop stream manualPfx numCodes (existing_codes df_history) [] 0 maxAttempts

/-- Python `str.isalnum()` restricted to ASCII letters and digits. -/
def isAlnumChar (c : Char) : Bool := c.isAlpha || c.isDigit

/-- Python `str.isalnum()` on a string: nonempty and all alphanumeric. -/
def isAlnumStr (s : List Char) : Bool := !s.isEmpty && s.all isAlnumChar

/-- Python `str.upper()` restricted to ASCII. -/
def pyToUpper (s : List Char) : List Char := s.map Char.toUpper

/-- The manual-prefix handling of `main` (src/unique_codes.py lines 207-218):
an empty input leaves the manual value `None`; otherwise the input is
uppercased and kept only when alphanumeric. -/
def manualPrefixFromInput (input : List Char) : Option (List Char) :=
  if input.isEmpty then none
  else
    let u := pyToUpper input
    if isAlnumStr u then some u else none

/-! ### Label rendering (src/app.py `generate_labels_pdf`,
src/ean_creator.py `render_pdf_buffer`) -/

inductive RenderError where
  | illegalCharacter
  | numberOfDigits
  | indexError
deriving DecidableEq

/-- The `EAN13NoChecksum.__init__` validation (src/app.py lines 30-36,
src/ean_creator.py lines 32-38): `IllegalCharacterError` unless the code is
all digits, `NumberOfDigitsError` unless it has exactly 13 of them. -/
def ean13NoChecksumInit (ean : List Char) : Except RenderError (List Char) :=
  if !isDigitStr ean then .error .illegalCharacter
  else if ean.length ≠ 13 then .error .numberOfDigits
  else .ok ean

/-- `df.loc[df["Producto"] == name, "EAN"].iloc[0]`: the EAN of the first
inventory row with the given product name (`none` models the `IndexError`
raised when no row matches). -/
def lookupEan (inventory : List (List Char × List Char)) (name : List Char) :
    Option (List Char) :=
  ((inventory.filter fun r => r.1 == name).head?).map fun r => r.2

/-- The per-product item loop of `render_pdf_buffer` (src/ean_creator.py
lines 284-316), which has NO try/except: the first failing item (missing
product row, or a code rejected by `EAN13NoChecksum`) aborts the whole
render with its exception; on success, one page of (name, code) tiles per
product. -/
def renderPages (inventory : List (List Char × List Char)) :
    List (List Char) → Except RenderError (List (List Char × List Char))
  | [] => .ok []
  | name :: rest =>
    match lookupEan inventory name with
    | none => .error .indexError
    | some ean =>
      match ean13NoChecksumInit ean with
      | .error e => .error e
      | .ok code =>
        match renderPages inventory rest with
        | .error e => .error e
        | .ok pages => .ok ((name, code) :: pages)

/-- `render_pdf_buffer` (src/ean_creator.py lines 258-319): `None` for an
empty selection, otherwise the pages — or the uncaught exception of the
first failing item. -/
def render_pdf_buffer (inventory : List (List Char × List Char))
    (productList : List (List Char)) :
    Except RenderError (Option (List (List Char × List Char))) :=
  if productList.isEmpty then .ok none
  else (renderPages inventory productList).map some

/-- The outcome of one item of app.py's `generate_labels_pdf` loop: the
rendered (name, code) page, or the per-item error reported by the
`except` branch (src/app.py lines 187-228). -/
def labelItemOutcome (inventory : List (List Char × List Char)) (name : List Char) :
    Except RenderError (List Char × List Char) :=
  match lookupEan inventory name with
  | none => .error .indexError
  | some ean =>
    match ean13NoChecksumInit ean with
    | .error e => .error e
    | .ok code => .ok (name, code)

/-- The product loop of `generate_labels_pdf` (src/app.py lines 182-228):
the EAN lookup (lines 183-185) sits OUTSIDE the `try`, so a missing product
row aborts the whole call; everything inside the `try` (lines 187-226) is
caught per item by the `except` (lines 227-228), which reports the error
for that item and lets the loop continue with the remaining products. -/
def generateLabelsOutcomes (inventory : List (List Char × List Char)) :
    List (List Char) →
    Except RenderError (List (Except RenderError (List Char × List Char)))
  | [] => .ok []
  | name :: rest =>
    match lookupEan inventory name with
    | none => .error .indexError
    | some ean =>
      let item : Except RenderError (List Char × List Char) :=
        match ean13NoChecksumInit ean with
        | .error e => .error e
        | .ok code => .ok (name, code)
      match generateLabelsOutcomes inventory rest with
      | .error e => .error e
      | .ok outs => .ok (item :: outs)

/-- `generate_labels_pdf` (src/app.py lines 117-238): an empty selection
returns immediately with only a warning; otherwise the per-item outcomes. -/
def generate_labels_pdf (inventory : List (List Char × List Char))
    (products : List (List Char)) :
    Option (Except RenderError (List (Except RenderError (List Char × List Char)))) :=
  if products.isEmpty then none
  else some (generateLabelsOutcomes inventory products)

/-! ### Grid geometry (src/ean_creator.py lines 258-303,
src/app.py lines 132-209).  reportlab lengths are modelled exactly in `ℚ`:
`mm = 72 / 25.4` points, `A4 = (210*mm, 297*mm)`. -/

def mmQ : ℚ := 72 / (127 / 5)

def a4Width : ℚ := 210 * mmQ
def a4Height : ℚ := 297 * mmQ

def margin_x : ℚ := 8 * mmQ
def margin_y : ℚ := 12 * mmQ
/-- src/ean_creator.py line 265. -/
def extra_bottom_margin : ℚ := -3 * mmQ
def cell_w : ℚ := 65 * mmQ
def cell_h : ℚ := 35 * mmQ

/-- `x0 = margin_x + col * cell_w` (src/ean_creator.py line 299,
src/app.py line 198). -/
def tileX0 (col : Nat) : ℚ := margin_x + col * cell_w

/-- `y0 = height - (margin_y + extra_bottom_margin) - (row + 1) * cell_h`
(src/ean_creator.py line 301). -/
def tileY0 (row : Nat) : ℚ :=
  a4Height - (margin_y + extra_bottom_margin) - (row + 1) * cell_h

/-- `y0 = height - margin_y - (row + 1) * cell_h` (src/app.py line 199). -/
def tileY0App (row : Nat) : ℚ := a4Height - margin_y - (row + 1) * cell_h

/-- Two axis-aligned `w × h` boxes with lower-left corners `(x1, y1)` and
`(x2, y2)` overlap when their interiors intersect. -/
def boxesOverlap (x1 y1 x2 y2 w h : ℚ) : Prop :=
  x1 < x2 + w ∧ x2 < x1 + w ∧ y1 < y2 + h ∧ y2 < y1 + h

/-! ### Concrete inputs used by witnesses and counterexamples -/

/-- The numeric value of the 4-character sequence slice at positions [8,12)
of an identifier (the quantity the spec's `next_identifier` contract is
stated in). -/
def seqSliceVal (s : List Char) : Nat := natOfDigits ((s.drop 8).take 4)

/-- An inventory column holding one well-formed identifier (sequence 1), one
malformed entry, and one missing cell. -/
def dfMixed : List (Option (List Char)) :=
  [some ['8', '4', '3', '7', '0', '0', '0', '0', '0', '0', '0', '1', '3'],
   some ['9', '9', 'X'], none]

/-- An inventory column holding an identifier with sequence slice 9999. -/
def dfSeq9999 : List (Option (List Char)) :=
  [some ['8', '4', '3', '7', '0', '0', '0', '0', '9', '9', '9', '9', '5']]

/-- A two-product inventory: `P1` carries a well-formed 13-digit code, `P2`
carries a malformed (non-digit) code. -/
def invMixed : List (List Char × List Char) :=
  [(['P', '1'], ['8', '4', '3', '7', '0', '0', '0', '0', '0', '0', '0', '1', '3']),
   (['P', '2'], ['B', 'A', 'D'])]

/-- A trivial randomness source for witnesses. -/
def zeroRandom : Nat → CodeRandom := fun _ => ⟨0, 0, fun _ => 0, fun _ => 0⟩

/-- An 8-character history entry equal to the only code an 8-character
manual fixed part can produce. -/
def dfFullHistory : List (Option (List Char)) :=
  [some ['A', 'B', 'C', 'D', 'E', 'F', 'G', 'H']]

/-! ### Theorems -/

theorem digitVal_digitChar (d : Nat) : digitVal (digitChar d) = d % 10 := by
  have h : d % 10 < 10 := Nat.mod_lt _ (by norm_num)
  unfold digitChar
  obtain ⟨m, hm⟩ : ∃ m, d % 10 = m := ⟨_, rfl⟩
  rw [hm] at h ⊢
  interval_cases m <;> rfl

theorem isDigit_digitChar (d : Nat) : (digitChar d).isDigit = true := by
  have h : d % 10 < 10 := Nat.mod_lt _ (by norm_num)
  unfold digitChar
  obtain ⟨m, hm⟩ : ∃ m, d % 10 = m := ⟨_, rfl⟩
  rw [hm] at h ⊢
  interval_cases m <;> decide

theorem natOfDigits_format4 {n : Nat} (h : n ≤ 9999) : natOfDigits (format4 n) = n := by
  simp only [natOfDigits, format4, List.foldl, digitVal_digitChar]
  omega

theorem isDigitStr_format4 (n : Nat) : isDigitStr (format4 n) = true := by
  simp [isDigitStr, format4, isDigit_digitChar]

theorem eanAt_assoc (k : Nat) :
    eanAt k = COUNTRY_PREFIX ++
      (format4 k ++ [digitChar (check_digit (COUNTRY_PREFIX ++ format4 k))]) := by
  simp [eanAt, ean13_fullcode, List.append_assoc]

theorem eanAt_length (k : Nat) : (eanAt k).length = 13 := rfl

theorem seqSliceVal_eanAt {k : Nat} (h : k ≤ 9999) : seqSliceVal (eanAt k) = k := by
  have hdt : ((eanAt k).drop 8).take 4 = format4 k := rfl
  rw [seqSliceVal, hdt, natOfDigits_format4 h]

theorem isDigitStr_eanAt (k : Nat) : isDigitStr (eanAt k) = true := by
  simp [eanAt, ean13_fullcode, isDigitStr, COUNTRY_PREFIX, format4, isDigit_digitChar]

theorem eanAt_startsWithPfx (k : Nat) : COUNTRY_PREFIX.isPrefixOf (eanAt k) = true := rfl

theorem foldl_max_le (l : List Nat) :
    ∀ a, a ≤ l.foldl max a ∧ ∀ x ∈ l, x ≤ l.foldl max a := by
  induction l with
  | nil => simp
  | cons b t ih =>
    intro a
    refine ⟨le_trans (le_max_left a b) (ih (max a b)).1, ?_⟩
    intro x hx
    rcases List.mem_cons.mp hx with hxb | hxt
    · rw [hxb]
      exact le_trans (le_max_right a b) (ih (max a b)).1
    · exact (ih (max a b)).2 x hxt

theorem foldl_max_mem (l : List Nat) :
    ∀ a, l.foldl max a = a ∨ l.foldl max a ∈ l := by
  induction l with
  | nil => simp
  | cons b t ih =>
    intro a
    rcases ih (max a b) with h | h
    · rcases max_choice a b with hm | hm
      · left
        simpa [hm] using h
      · right
        rw [List.mem_cons]
        left
        simpa [hm] using h
    · right
      exact List.mem_cons_of_mem _ h

theorem foldl_max_zero_mem {l : List Nat} (h : l ≠ []) : l.foldl max 0 ∈ l := by
  rcases foldl_max_mem l 0 with h0 | hm
  · match l, h with
    | b :: t, _ =>
      have hb : b ≤ (b :: t).foldl max 0 :=
        (foldl_max_le (b :: t) 0).2 b (List.mem_cons_self b t)
      rw [h0] at hb
      have : b = 0 := Nat.le_zero.mp hb
      rw [h0, ← this]
      exact List.mem_cons_self b t
  · exact hm

theorem mem_pattern_eans {df : List (Option (List Char))} {s : List Char}
    (h : s ∈ pattern_eans df) : qualifiesPattern s = true := by
  simp only [pattern_eans, List.mem_filterMap] at h
  obtain ⟨o, ho, he⟩ := h
  match o with
  | none => simp at he
  | some s' =>
    by_cases hq : qualifiesPattern s' = true
    · simp only [hq, if_true, Option.some.injEq] at he
      rw [← he]
      exact hq
    · simp [hq] at he

theorem qualifies_parts {s : List Char} (h : qualifiesPattern s = true) :
    COUNTRY_PREFIX.isPrefixOf s = true ∧ s.length = 13 ∧ isDigitStr s = true := by
  simp only [qualifiesPattern, Bool.and_eq_true, beq_iff_eq] at h
  exact ⟨h.1.1, h.1.2, h.2⟩

theorem slice_isDigitStr {s : List Char} (h : qualifiesPattern s = true) :
    isDigitStr ((s.drop 8).take 4) = true := by
  obtain ⟨-, hlen, hdig⟩ := qualifies_parts h
  simp only [isDigitStr, Bool.and_eq_true, Bool.not_eq_true', List.all_eq_true] at hdig ⊢
  refine ⟨?_, ?_⟩
  · have hl : ((s.drop 8).take 4).length = 4 := by
      simp [List.length_take, List.length_drop, hlen]
    cases hh : (s.drop 8).take 4 with
    | nil => rw [hh] at hl; simp at hl
    | cons a t => rfl
  · intro c hc
    exact hdig.2 c (List.drop_subset 8 s (List.take_subset 4 _ hc))

theorem filterMap_eq_map_of_forall {α β : Type} {l : List α} {f : α → Option β} {g : α → β}
    (h : ∀ x ∈ l, f x = some (g x)) : l.filterMap f = l.map g := by
  induction l with
  | nil => rfl
  | cons a t ih =>
    rw [List.filterMap_cons, h a (List.mem_cons_self a t), List.map_cons,
      ih fun x hx => h x (List.mem_cons_of_mem a hx)]

theorem valid_collapse (df : List (Option (List Char))) :
    ((pattern_eans df).map fun s => toNumeric? ((s.drop 8).take 4)).filterMap id
      = (pattern_eans df).map seqSliceVal := by
  rw [List.filterMap_map]
  refine filterMap_eq_map_of_forall fun s hs => ?_
  have hq := mem_pattern_eans hs
  simp only [Function.comp_apply, id, toNumeric?, slice_isDigitStr hq, if_true]
  rfl

theorem pattern_eans_nil : pattern_eans [] = [] := rfl

theorem next_seq_eq {df : List (Option (List Char))} (h : pattern_eans df ≠ []) :
    next_sequential_number df = ((pattern_eans df).map seqSliceVal).foldl max 0 + 1 := by
  have hdf : df.isEmpty = false := by
    cases df with
    | nil => exact absurd pattern_eans_nil h
    | cons a t => rfl
  have hpe : (pattern_eans df).isEmpty = false := by
    cases hp : pattern_eans df with
    | nil => exact absurd hp h
    | cons a t => rfl
  have hve : ((pattern_eans df).map seqSliceVal).isEmpty = false := by
    cases hp : pattern_eans df with
    | nil => exact absurd hp h
    | cons a t => rfl
  simp only [next_sequential_number, hdf, Bool.false_eq_true, if_false, hpe,
    valid_collapse df, hve]

theorem next_seq_nil_pattern {df : List (Option (List Char))} (h : pattern_eans df = []) :
    next_sequential_number df = 1 := by
  cases df with
  | nil => rfl
  | cons a t =>
    simp only [next_sequential_number, List.isEmpty_cons, Bool.false_eq_true, if_false, h,
      List.isEmpty_nil, if_true]

theorem next_seq_gt {df : List (Option (List Char))} {s : List Char}
    (hs : s ∈ pattern_eans df) : seqSliceVal s < next_sequential_number df := by
  have hne : pattern_eans df ≠ [] := List.ne_nil_of_mem hs
  rw [next_seq_eq hne]
  have := (foldl_max_le ((pattern_eans df).map seqSliceVal) 0).2 (seqSliceVal s)
    (List.mem_map_of_mem seqSliceVal hs)
  omega

theorem next_seq_achieved {df : List (Option (List Char))} (h : pattern_eans df ≠ []) :
    ∃ s ∈ pattern_eans df, next_sequential_number df = seqSliceVal s + 1 := by
  rw [next_seq_eq h]
  have hm : ((pattern_eans df).map seqSliceVal).foldl max 0 ∈
      (pattern_eans df).map seqSliceVal :=
    foldl_max_zero_mem (by simpa using h)
  obtain ⟨s, hs, hv⟩ := List.mem_map.mp hm
  exact ⟨s, hs, by rw [hv]⟩

theorem generate_next_ean_ok {df : List (Option (List Char))}
    (h : next_sequential_number df ≤ 9999) :
    generate_next_ean df = .ok (eanAt (next_sequential_number df)) := by
  simp only [generate_next_ean, eanAt, gt_iff_lt]
  rw [if_neg (by omega)]

/-- **C1.** `next_identifier` considers only entries that start with the
8-digit prefix and are well-formed (13 characters, all digits); it never
raises on malformed or foreign entries (it is a total function); the next
sequence number is strictly above every qualifying entry's [8,12) slice
value, equals one qualifying slice value plus 1 when any entry qualifies,
and is 1 when none does; and (below the 9999 bound) the returned 13-digit
code carries exactly that sequence number in its [8,12) slice. -/
theorem next_identifier_filters_and_increments (df : List (Option (List Char))) :
    (pattern_eans df = [] → next_sequential_number df = 1) ∧
    (∀ s ∈ pattern_eans df, seqSliceVal s < next_sequential_number df) ∧
    (pattern_eans df ≠ [] →
      ∃ s ∈ pattern_eans df, next_sequential_number df = seqSliceVal s + 1) ∧
    (next_sequential_number df ≤ 9999 →
      ∃ e, generate_next_ean df = .ok e ∧ e.length = 13 ∧ isDigitStr e = true ∧
        COUNTRY_PREFIX.isPrefixOf e = true ∧
        seqSliceVal e = next_sequential_number df) := by
  refine ⟨next_seq_nil_pattern, fun s hs => next_seq_gt hs, next_seq_achieved, fun h => ?_⟩
  exact ⟨eanAt (next_sequential_number df), generate_next_ean_ok h,
    eanAt_length _, isDigitStr_eanAt _, eanAt_startsWithPfx _, seqSliceVal_eanAt h⟩

theorem next_identifier_filters_and_increments_witness :
    (∃ s ∈ pattern_eans dfMixed, next_sequential_number dfMixed = seqSliceVal s + 1) ∧
    (∃ e, generate_next_ean dfMixed = .ok e ∧ e.length = 13 ∧ isDigitStr e = true ∧
      COUNTRY_PREFIX.isPrefixOf e = true ∧
      seqSliceVal e = next_sequential_number dfMixed) :=
  ⟨(next_identifier_filters_and_increments dfMixed).2.2.1 (by decide),
   (next_identifier_filters_and_increments dfMixed).2.2.2 (by decide)⟩

theorem generate_next_ean_ok_inv {df : List (Option (List Char))} {e : List Char}
    (h : generate_next_ean df = .ok e) :
    next_sequential_number df ≤ 9999 ∧ e = eanAt (next_sequential_number df) := by
  by_cases hle : next_sequential_number df ≤ 9999
  · rw [generate_next_ean_ok hle] at h
    injection h with h
    exact ⟨hle, h.symm⟩
  · exfalso
    simp only [generate_next_ean, gt_iff_lt] at h
    rw [if_pos (by omega)] at h
    exact Except.noConfusion h

/-- **C2.** The weighted mod-10 check digit round-trips: recomputing it from
the first 12 digits of `base ++ [check_digit base]` reproduces it; and every
identifier returned by `generate_next_ean` is its 12-digit base followed by
exactly the check digit recomputed from its own first 12 digits. -/
theorem check_digit_roundtrip_invariant :
    (∀ base : List Char, base.length = 12 →
      check_digit ((base ++ [digitChar (check_digit base)]).take 12) = check_digit base) ∧
    (∀ df e, generate_next_ean df = .ok e →
      e.length = 13 ∧ e.take 12 = COUNTRY_PREFIX ++ format4 (next_sequential_number df) ∧
      e.drop 12 = [digitChar (check_digit (e.take 12))]) := by
  constructor
  · intro base hb
    rw [List.take_left' hb]
  · intro df e h
    obtain ⟨hle, he⟩ := generate_next_ean_ok_inv h
    subst he
    exact ⟨eanAt_length _, rfl, rfl⟩

theorem check_digit_roundtrip_invariant_witness :
    check_digit (((COUNTRY_PREFIX ++ format4 1) ++
        [digitChar (check_digit (COUNTRY_PREFIX ++ format4 1))]).take 12)
      = check_digit (COUNTRY_PREFIX ++ format4 1) ∧
    ((eanAt 1).length = 13 ∧
      (eanAt 1).take 12 = COUNTRY_PREFIX ++ format4 (next_sequential_number []) ∧
      (eanAt 1).drop 12 = [digitChar (check_digit ((eanAt 1).take 12))]) :=
  ⟨check_digit_roundtrip_invariant.1 (COUNTRY_PREFIX ++ format4 1) (by decide),
   check_digit_roundtrip_invariant.2 [] (eanAt 1) rfl⟩

/-- **C6.** When the next sequence number exceeds 9999 — in particular
whenever some qualifying inventory entry already carries sequence slice
9999 — `generate_next_ean` fails with the range-exhaustion error and
returns no code (there is no retry: the error is the whole result). -/
theorem range_exhaustion_hard_stop (df : List (Option (List Char))) :
    (next_sequential_number df > 9999 →
      generate_next_ean df = .error .rangeExhausted) ∧
    ((∃ s ∈ pattern_eans df, seqSliceVal s = 9999) →
      generate_next_ean df = .error .rangeExhausted) := by
  have hgen : next_sequential_number df > 9999 →
      generate_next_ean df = .error .rangeExhausted := by
    intro h
    simp only [generate_next_ean, gt_iff_lt]
    rw [if_pos h]
  refine ⟨hgen, ?_⟩
  rintro ⟨s, hs, hv⟩
  have := next_seq_gt hs
  exact hgen (by omega)

theorem range_exhaustion_hard_stop_witness :
    generate_next_ean dfSeq9999 = .error .rangeExhausted :=
  (range_exhaustion_hard_stop dfSeq9999).2 (by decide)

theorem eanAt_ne_nil (k : Nat) : eanAt k ≠ [] := by
  intro h
  have := eanAt_length k
  rw [h] at this
  simp at this

theorem suggestLoop_spec (used : List (List Char)) :
    ∀ fuel seq, 10000 < seq + fuel →
      (suggestLoop used seq fuel = [] ∧ ∀ k, seq ≤ k → k ≤ 9999 → eanAt k ∈ used) ∨
      (∃ j, seq + j ≤ 9999 ∧ suggestLoop used seq fuel = eanAt (seq + j) ∧
        eanAt (seq + j) ∉ used ∧ ∀ i < j, eanAt (seq + i) ∈ used) := by
  intro fuel
  induction fuel with
  | zero =>
    intro seq hseq
    left
    exact ⟨rfl, fun k hk hk' => absurd (by omega : k < k) (lt_irrefl k)⟩
  | succ f ih =>
    intro seq hseq
    by_cases htop : seq > 9999
    · left
      refine ⟨?_, fun k hk hk' => by omega⟩
      simp only [suggestLoop]
      rw [if_pos htop]
    · by_cases hc : eanAt seq ∈ used
      · have hstep : suggestLoop used seq (f + 1) = suggestLoop used (seq + 1) f := by
          simp only [suggestLoop]
          rw [if_neg htop, if_pos hc]
        rcases ih (seq + 1) (by omega) with ⟨h1, h2⟩ | ⟨j, hj, heq, hnot, hall⟩
        · left
          refine ⟨by rw [hstep, h1], fun k hk hk' => ?_⟩
          rcases Nat.eq_or_lt_of_le hk with hke | hkl
          · rw [← hke]
            exact hc
          · exact h2 k (by omega) hk'
        · right
          refine ⟨j + 1, by omega, ?_, ?_, ?_⟩
          · rw [hstep, heq]
            congr 1
            omega
          · have : seq + (j + 1) = seq + 1 + j := by omega
            rw [this]
            exact hnot
          · intro i hi
            cases i with
            | zero => simpa using hc
            | succ i' =>
              have : seq + (i' + 1) = seq + 1 + i' := by omega
              rw [this]
              exact hall i' (by omega)
      · right
        refine ⟨0, by omega, ?_, by simpa using hc, fun i hi => absurd hi (by omega)⟩
        simp only [suggestLoop]
        rw [if_neg htop, if_neg hc, Nat.add_zero]

/-- **C10.** In the add-product flow with a non-empty inventory table, the
suggested identifier is never one already present in the table: the loop
starts at the next sequential number, skips every candidate full code that
already occurs, returns the first collision-free candidate (whose sequence
number therefore exceeds max+1 exactly when the intermediate candidates are
all occupied), and suggests the empty string once every sequence number up
to 9999 yields an occupied code. -/
theorem suggestion_skips_used_eans (df : List (Option (List Char))) (hne : df ≠ []) :
    (suggested_ean df ≠ [] → suggested_ean df ∉ used_eans df) ∧
    (suggested_ean df = [] →
      ∀ k, next_sequential_number df ≤ k → k ≤ 9999 → eanAt k ∈ used_eans df) ∧
    (suggested_ean df ≠ [] →
      ∃ j, next_sequential_number df + j ≤ 9999 ∧
        suggested_ean df = eanAt (next_sequential_number df + j) ∧
        eanAt (next_sequential_number df + j) ∉ used_eans df ∧
        ∀ i < j, eanAt (next_sequential_number df + i) ∈ used_eans df) := by
  have hsg : suggested_ean df
      = suggestLoop (used_eans df) (next_sequential_number df) 10001 := by
    unfold suggested_ean
    rw [if_neg (by simpa [List.isEmpty_iff] using hne)]
  rcases suggestLoop_spec (used_eans df) 10001 (next_sequential_number df) (by omega) with
    ⟨h1, h2⟩ | ⟨j, hj, heq, hnot, hall⟩
  · rw [hsg] at *
    exact ⟨fun h => absurd h1 h, fun _ => h2, fun h => absurd h1 h⟩
  · rw [hsg] at *
    refine ⟨fun _ => by rw [heq]; exact hnot, fun h0 => ?_, fun _ => ⟨j, hj, heq, hnot, hall⟩⟩
    rw [heq] at h0
    exact absurd h0 (eanAt_ne_nil _)

theorem suggestion_skips_used_eans_witness :
    suggested_ean dfMixed ∉ used_eans dfMixed ∧
    (∃ j, next_sequential_number dfMixed + j ≤ 9999 ∧
      suggested_ean dfMixed = eanAt (next_sequential_number dfMixed + j) ∧
      eanAt (next_sequential_number dfMixed + j) ∉ used_eans dfMixed ∧
      ∀ i < j, eanAt (next_sequential_number dfMixed + i) ∈ used_eans dfMixed) :=
  ⟨(suggestion_skips_used_eans dfMixed (by decide)).1 (by decide),
   (suggestion_skips_used_eans dfMixed (by decide)).2.2 (by decide)⟩

theorem listSwap_perm {α : Type} [DecidableEq α] (l : List α) (i j : Nat) :
    (listSwap l i j).Perm l := by
  unfold listSwap
  split
  case h_2 => exact List.Perm.refl l
  case h_1 a b hi hj =>
    obtain ⟨hil, ha⟩ := List.getElem?_eq_some.mp hi
    obtain ⟨hjl, hb⟩ := List.getElem?_eq_some.mp hj
    refine List.perm_iff_count.mpr fun x => ?_
    have h1 : j < (l.set i b).length := by simpa using hjl
    have hjb : (l.set i b)[j] = b := by
      rw [List.getElem_set]
      split
      · rfl
      · exact hb
    rw [List.count_set, List.count_set]
    rw [hjb, ha]
    have hea : (if a == x then 1 else 0) ≤ l.count x := by
      by_cases hax : a = x
      · have : a ∈ l := ha ▸ List.getElem_mem hil
        subst hax
        simpa [List.count_pos_iff] using this
      · simp [hax]
    have heb : (if b == x then 1 else 0) ≤ l.count x := by
      by_cases hbx : b = x
      · have : b ∈ l := hb ▸ List.getElem_mem hjl
        subst hbx
        simpa [List.count_pos_iff] using this
      · simp [hbx]
    omega

theorem shuffleSteps_perm {α : Type} [DecidableEq α] (r : Nat → Nat) :
    ∀ (c : Nat) (l : List α), (shuffleSteps r c l).Perm l
  | 0, l => List.Perm.refl l
  | c + 1, l =>
    (shuffleSteps_perm r c (listSwap l (c + 1) (r (c + 1) % (c + 2)))).trans
      (listSwap_perm l (c + 1) (r (c + 1) % (c + 2)))

theorem pyShuffle_perm {α : Type} [DecidableEq α] (r : Nat → Nat) (l : List α) :
    (pyShuffle r l).Perm l :=
  shuffleSteps_perm r (l.length - 1) l

theorem getD_mem {α : Type} {L : List α} {d : α} (hd : d ∈ L) (n : Nat) :
    L.getD n d ∈ L := by
  rw [List.getD_eq_getElem?_getD]
  cases h : L[n]? with
  | none => simpa using hd
  | some x =>
    have := List.getElem?_mem h
    simpa using this

/-- The string built by `generate_random_code` before the shuffle. -/
theorem generate_random_code_perm (rnd : CodeRandom) (len : Nat) :
    (generate_random_code rnd len).Perm
      (asciiUppercaseL.getD (rnd.letterIdx % 26) 'A'
        :: digitsL.getD (rnd.digitIdx % 10) '0'
        :: (List.range (len - 2)).map fun t => charactersL.getD (rnd.rest t % 36) 'A') :=
  pyShuffle_perm _ _

theorem generate_random_code_length (rnd : CodeRandom) :
    (generate_random_code rnd CODE_LENGTH).length = 8 := by
  rw [(generate_random_code_perm rnd CODE_LENGTH).length_eq]
  simp [CODE_LENGTH]

theorem generate_random_code_chars (rnd : CodeRandom) {c : Char}
    (hc : c ∈ generate_random_code rnd CODE_LENGTH) : c ∈ charactersL := by
  rw [(generate_random_code_perm rnd CODE_LENGTH).mem_iff] at hc
  rcases List.mem_cons.mp hc with h | hc
  · rw [h]
    exact List.mem_append_left _ (getD_mem (by decide) _)
  rcases List.mem_cons.mp hc with h | hc
  · rw [h]
    exact List.mem_append_right _ (getD_mem (by decide) _)
  · obtain ⟨t, -, ht⟩ := List.mem_map.mp hc
    rw [← ht]
    exact getD_mem (by decide) _

theorem drawCandidate_none_inv {stream : Nat → CodeRandom} {i : Nat} {c : List Char}
    (h : drawCandidate none stream i = .ok c) :
    c = generate_random_code (stream i) CODE_LENGTH := by
  simp only [drawCandidate, Except.ok.injEq] at h
  exact h.symm

theorem drawCandidate_some_inv {p : List Char} {stream : Nat → CodeRandom} {i : Nat}
    {c : List Char} (h : drawCandidate (some p) stream i = .ok c) :
    c = p ++ (List.range (CODE_LENGTH - p.length)).map
      fun t => charactersL.getD ((stream i).rest t % 36) 'A' := by
  simp only [drawCandidate, generate_random_code_with_pfx] at h
  by_cases hlt : CODE_LENGTH < p.length
  · rw [if_pos hlt] at h
    exact absurd h (by simp)
  · rw [if_neg hlt, Except.ok.injEq] at h
    exact h.symm

theorem getUniqueCodesLoop_ok_spec (stream : Nat → CodeRandom) (mp : Option (List Char))
    (numCodes : Nat) :
    ∀ (fuel : Nat) (existing newCodes : List (List Char)) (attempts : Nat)
      (codes : List (List Char)),
      getUniqueCodesLoop stream mp numCodes existing newCodes attempts fuel = .ok codes →
      (newCodes.Nodup → codes.Nodup) ∧
      (newCodes.length ≤ numCodes → codes.length = numCodes) ∧
      codes.length ≤ newCodes.length + fuel ∧
      ∃ added, codes = newCodes ++ added ∧
        ∀ c ∈ added, c ∉ existing ∧ ∃ i, drawCandidate mp stream i = .ok c := by
  intro fuel
  induction fuel with
  | zero =>
    intro existing newCodes attempts codes h
    simp only [getUniqueCodesLoop] at h
    by_cases hlt : newCodes.length < numCodes
    · rw [if_pos hlt] at h
      exact absurd h (by simp)
    · rw [if_neg hlt] at h
      injection h with h
      subst h
      exact ⟨fun hn => hn, fun hle => by omega, by omega, [], by simp, by simp⟩
  | succ f ih =>
    intro existing newCodes attempts codes h
    simp only [getUniqueCodesLoop] at h
    by_cases hlt : newCodes.length < numCodes
    · rw [if_pos hlt] at h
      cases hd : drawCandidate mp stream attempts with
      | error e =>
        rw [hd] at h
        exact absurd h (by simp)
      | ok cand =>
        rw [hd] at h
        dsimp only at h
        by_cases hacc : cand ∉ existing ∧ cand ∉ newCodes
        · rw [if_pos hacc] at h
          obtain ⟨hnd, hlen, hfu, added', hadd', hprop'⟩ := ih _ _ _ _ h
          refine ⟨?_, ?_, ?_, cand :: added', ?_, ?_⟩
          · intro hnodup
            apply hnd
            rw [List.nodup_append]
            refine ⟨hnodup, List.nodup_singleton _, fun a ha => ?_⟩
            simp only [List.mem_singleton]
            intro he
            rw [he] at ha
            exact hacc.2 ha
          · intro hle
            apply hlen
            simp only [List.length_append, List.length_singleton]
            omega
          · simp only [List.length_append, List.length_singleton] at hfu
            omega
          · rw [hadd', List.append_assoc, List.singleton_append]
          · intro c hc
            rcases List.mem_cons.mp hc with hce | hcm
            · rw [hce]
              exact ⟨hacc.1, attempts, hd⟩
            · have hpc := hprop' c hcm
              exact ⟨fun hmem => hpc.1 (List.mem_append_left _ hmem), hpc.2⟩
        · rw [if_neg hacc] at h
          obtain ⟨hnd, hlen, hfu, added', hadd', hprop'⟩ := ih _ _ _ _ h
          exact ⟨hnd, hlen, by omega, added', hadd', hprop'⟩
    · rw [if_neg hlt] at h
      injection h with h
      subst h
      exact ⟨fun hn => hn, fun hle => by omega, by omega, [], by simp, by simp⟩

/-- **C3.** A successful call of `get_unique_codes` with `count = N` and no
manual fixed part returns exactly N codes, each of length 8 over the
alphabet A-Z,0-9, pairwise distinct, and none a member of the (stripped)
history set. -/
theorem sampler_shape_and_disjointness (df : List (Option (List Char))) (numCodes : Nat)
    (stream : Nat → CodeRandom) (maxAttempts : Nat) (codes : List (List Char))
    (h : get_unique_codes df numCodes none stream maxAttempts = .ok codes) :
    codes.length = numCodes ∧ codes.Nodup ∧
    (∀ c ∈ codes, c.length = 8 ∧ ∀ ch ∈ c, ch ∈ charactersL) ∧
    (∀ c ∈ codes, c ∉ existing_codes df) := by
  obtain ⟨hnd, hlen, -, added, hadd, hprop⟩ :=
    getUniqueCodesLoop_ok_spec stream none numCodes maxAttempts (existing_codes df) [] 0
      codes h
  rw [List.nil_append] at hadd
  subst hadd
  refine ⟨hlen (by simp), hnd List.nodup_nil, fun c hc => ?_, fun c hc => (hprop c hc).1⟩
  obtain ⟨-, i, hi⟩ := hprop c hc
  rw [drawCandidate_none_inv hi]
  exact ⟨generate_random_code_length _, fun ch hch => generate_random_code_chars _ hch⟩

theorem sampler_shape_and_disjointness_witness :
    ∃ codes, get_unique_codes [] 1 none zeroRandom 1 = .ok codes ∧
      (codes.length = 1 ∧ codes.Nodup ∧
       (∀ c ∈ codes, c.length = 8 ∧ ∀ ch ∈ c, ch ∈ charactersL) ∧
       (∀ c ∈ codes, c ∉ existing_codes [])) :=
  ⟨_, rfl, sampler_shape_and_disjointness [] 1 zeroRandom 1 _ rfl⟩

theorem getUniqueCodesLoop_exhaust (stream : Nat → CodeRandom) (mp : Option (List Char))
    (numCodes : Nat) (E0 : List (List Char))
    (hall : ∀ i, ∃ c, drawCandidate mp stream i = .ok c ∧ c ∈ E0) :
    ∀ (fuel : Nat) (existing newCodes : List (List Char)) (attempts : Nat),
      (∀ x ∈ E0, x ∈ existing) → newCodes.length < numCodes →
      getUniqueCodesLoop stream mp numCodes existing newCodes attempts fuel
        = .error .generationExhausted := by
  intro fuel
  induction fuel with
  | zero =>
    intro existing newCodes attempts hsub hlt
    simp only [getUniqueCodesLoop]
    rw [if_pos hlt]
  | succ f ih =>
    intro existing newCodes attempts hsub hlt
    simp only [getUniqueCodesLoop]
    rw [if_pos hlt]
    obtain ⟨c, hc, hcE⟩ := hall attempts
    rw [hc]
    dsimp only
    rw [if_neg fun hn => hn.1 (hsub c hcE)]
    exact ih existing newCodes (attempts + 1) hsub hlt

/-- **C4.** The attempt cap of `get_unique_codes` bounds the draws of the
whole call (a successful call needs `numCodes ≤ maxAttempts`, because every
draw — accepted or rejected — consumes one attempt); and when every
candidate the randomness can produce already belongs to the history set
(in particular when the history contains every possible code for the
length/fixed-part combination), a call for at least one code fails with the
generation-exhaustion error and returns no partial result. -/
theorem sampler_exhaustion_all_or_nothing (df : List (Option (List Char)))
    (numCodes : Nat) (mp : Option (List Char)) (stream : Nat → CodeRandom)
    (maxAttempts : Nat) :
    (1 ≤ numCodes →
      (∀ i, ∃ c, drawCandidate mp stream i = .ok c ∧ c ∈ existing_codes df) →
      get_unique_codes df numCodes mp stream maxAttempts
        = .error .generationExhausted) ∧
    (∀ codes, get_unique_codes df numCodes mp stream maxAttempts = .ok codes →
      codes.length = numCodes ∧ numCodes ≤ maxAttempts) := by
  constructor
  · intro hpos hall
    exact getUniqueCodesLoop_exhaust stream mp numCodes (existing_codes df) hall
      maxAttempts (existing_codes df) [] 0 (fun x hx => hx) (by simpa using hpos)
  · intro codes h
    obtain ⟨-, hlen, hfu, -⟩ :=
      getUniqueCodesLoop_ok_spec stream mp numCodes maxAttempts (existing_codes df) [] 0
        codes h
    have h1 := hlen (by simp)
    simp only [List.length_nil] at hfu
    exact ⟨h1, by omega⟩

theorem sampler_exhaustion_all_or_nothing_witness :
    get_unique_codes dfFullHistory 1
      (some ['A', 'B', 'C', 'D', 'E', 'F', 'G', 'H']) zeroRandom 10000
      = .error .generationExhausted :=
  (sampler_exhaustion_all_or_nothing dfFullHistory 1
      (some ['A', 'B', 'C', 'D', 'E', 'F', 'G', 'H']) zeroRandom 10000).1
    (by omega)
    (fun i => ⟨['A', 'B', 'C', 'D', 'E', 'F', 'G', 'H'], rfl, by decide⟩)

/-- **C5.** A manual fixed part of at most 4 alphanumeric characters is
uppercased by the interactive flow before sampling, and every code a
successful call returns starts with that uppercased form, the remaining
`CODE_LENGTH - |input|` characters being drawn from the alphabet A-Z,0-9. -/
theorem sampler_manual_pfx_respected (input : List Char) (df : List (Option (List Char)))
    (numCodes : Nat) (stream : Nat → CodeRandom) (maxAttempts : Nat)
    (p : List Char) (codes : List (List Char))
    (hlen4 : input.length ≤ 4) (hp : manualPrefixFromInput input = some p)
    (h : get_unique_codes df numCodes (some p) stream maxAttempts = .ok codes) :
    p = pyToUpper input ∧
    ∀ c ∈ codes, pyToUpper input <+: c ∧
      ∃ rest, c = pyToUpper input ++ rest ∧
        rest.length = CODE_LENGTH - input.length ∧ ∀ ch ∈ rest, ch ∈ charactersL := by
  have hpu : p = pyToUpper input := by
    simp only [manualPrefixFromInput] at hp
    by_cases he : input.isEmpty
    · rw [if_pos he] at hp
      exact absurd hp (by simp)
    · rw [if_neg he] at hp
      by_cases ha : isAlnumStr (pyToUpper input) = true
      · rw [if_pos ha] at hp
        injection hp with hp
        exact hp.symm
      · rw [if_neg ha] at hp
        exact absurd hp (by simp)
  obtain ⟨-, -, -, added, hadd, hprop⟩ :=
    getUniqueCodesLoop_ok_spec stream (some p) numCodes maxAttempts (existing_codes df)
      [] 0 codes h
  rw [List.nil_append] at hadd
  subst hadd
  refine ⟨hpu, fun c hc => ?_⟩
  obtain ⟨-, i, hi⟩ := hprop c hc
  have hce := drawCandidate_some_inv hi
  rw [← hpu]
  have hplen : p.length = input.length := by
    rw [hpu, pyToUpper, List.length_map]
  refine ⟨⟨_, hce.symm⟩, _, hce, ?_, fun ch hch => ?_⟩
  · rw [List.length_map, List.length_range, hplen]
  · obtain ⟨t, -, ht⟩ := List.mem_map.mp hch
    rw [← ht]
    exact getD_mem (by decide) _

theorem sampler_manual_pfx_respected_witness :
    ∃ codes,
      get_unique_codes [] 1 (some ['V', 'I', 'P', '1']) zeroRandom 1 = .ok codes ∧
      (['V', 'I', 'P', '1'] = pyToUpper ['v', 'i', 'p', '1'] ∧
       ∀ c ∈ codes, pyToUpper ['v', 'i', 'p', '1'] <+: c ∧
         ∃ rest, c = pyToUpper ['v', 'i', 'p', '1'] ++ rest ∧
           rest.length = CODE_LENGTH - (['v', 'i', 'p', '1'] : List Char).length ∧
           ∀ ch ∈ rest, ch ∈ charactersL) :=
  ⟨_, rfl, sampler_manual_pfx_respected ['v', 'i', 'p', '1'] [] 1 zeroRandom 1
    ['V', 'I', 'P', '1'] _ (by decide) (by decide) rfl⟩

/-- **C8.** Every code produced by the no-fixed-part generator at the
default length 8 contains at least one uppercase letter and at least one
digit (it is never all-digit or all-letter): the two forced characters are
drawn from the disjoint sub-alphabets before the shuffle, and the shuffle
is a permutation. -/
theorem random_code_mixed_classes (rnd : CodeRandom) :
    (generate_random_code rnd CODE_LENGTH).length = 8 ∧
    (∃ ch ∈ generate_random_code rnd CODE_LENGTH, ch ∈ asciiUppercaseL) ∧
    (∃ ch ∈ generate_random_code rnd CODE_LENGTH, ch ∈ digitsL) := by
  refine ⟨generate_random_code_length rnd, ?_, ?_⟩
  · refine ⟨asciiUppercaseL.getD (rnd.letterIdx % 26) 'A', ?_, getD_mem (by decide) _⟩
    rw [(generate_random_code_perm rnd CODE_LENGTH).mem_iff]
    exact List.mem_cons_self _ _
  · refine ⟨digitsL.getD (rnd.digitIdx % 10) '0', ?_, getD_mem (by decide) _⟩
    rw [(generate_random_code_perm rnd CODE_LENGTH).mem_iff]
    exact List.mem_cons_of_mem _ (List.mem_cons_self _ _)

theorem generateLabelsOutcomes_eq (inventory : List (List Char × List Char)) :
    ∀ products : List (List Char),
      (∀ name ∈ products, (lookupEan inventory name).isSome = true) →
      generateLabelsOutcomes inventory products
        = .ok (products.map (labelItemOutcome inventory))
  | [], _ => rfl
  | name :: rest, hf => by
    have hs := hf name (List.mem_cons_self _ _)
    obtain ⟨ean, hec⟩ := Option.isSome_iff_exists.mp hs
    have ih := generateLabelsOutcomes_eq inventory rest
      fun n hn => hf n (List.mem_cons_of_mem _ hn)
    simp only [generateLabelsOutcomes, hec, ih, List.map_cons, labelItemOutcome]

/-- **C7 (counterexample).** In `render_pdf_buffer` (src/ean_creator.py) there
is no per-item exception handling: with an inventory whose second product
carries a malformed code, rendering the two products aborts the whole
document with the first item's pages lost, instead of reporting the failure
for that item and continuing. -/
theorem render_pdf_buffer_aborts_on_bad_item :
    render_pdf_buffer invMixed [['P', '1'], ['P', '2']]
      = .error .illegalCharacter := rfl

/-- **C7 (amended).** In app.py's `generate_labels_pdf` the per-item
`try/except` does isolate rendering failures: when every selected product
has an inventory row, the call returns one outcome per product, each
computed from that product alone, so a failing item contributes an error
outcome while the remaining items are still processed; `render_pdf_buffer`
of ean_creator.py (see the counterexample) lacks this isolation. -/
theorem labels_pdf_isolates_item_failures (inventory : List (List Char × List Char))
    (products : List (List Char))
    (hfound : ∀ name ∈ products, (lookupEan inventory name).isSome = true) :
    generateLabelsOutcomes inventory products
      = .ok (products.map (labelItemOutcome inventory)) ∧
    (products ≠ [] → generate_labels_pdf inventory products
      = some (.ok (products.map (labelItemOutcome inventory)))) := by
  have he := generateLabelsOutcomes_eq inventory products hfound
  refine ⟨he, fun hne => ?_⟩
  rw [generate_labels_pdf, if_neg (by simpa [List.isEmpty_iff] using hne), he]

theorem labels_pdf_isolates_item_failures_witness :
    generateLabelsOutcomes invMixed [['P', '1'], ['P', '2']]
      = .ok (([['P', '1'], ['P', '2']] : List (List Char)).map
          (labelItemOutcome invMixed)) ∧
    generate_labels_pdf invMixed [['P', '1'], ['P', '2']]
      = some (.ok (([['P', '1'], ['P', '2']] : List (List Char)).map
          (labelItemOutcome invMixed))) :=
  ⟨(labels_pdf_isolates_item_failures invMixed [['P', '1'], ['P', '2']] (by decide)).1,
   (labels_pdf_isolates_item_failures invMixed [['P', '1'], ['P', '2']] (by decide)).2
     (by decide)⟩

theorem mmQ_pos : (0 : ℚ) < mmQ := by norm_num [mmQ]

theorem tileX0_sep {c c' : Nat} (h : c < c') : tileX0 c + cell_w ≤ tileX0 c' := by
  unfold tileX0 cell_w margin_x
  have hc : (c : ℚ) + 1 ≤ (c' : ℚ) := by exact_mod_cast h
  have key := mul_le_mul_of_nonneg_right hc
    (le_of_lt (by norm_num [mmQ] : (0 : ℚ) < 65 * mmQ))
  ring_nf at key ⊢
  linarith

theorem tileY0_sep {r r' : Nat} (h : r < r') : tileY0 r' + cell_h ≤ tileY0 r := by
  unfold tileY0 cell_h a4Height margin_y extra_bottom_margin
  have hr : (r : ℚ) + 1 ≤ (r' : ℚ) := by exact_mod_cast h
  have key := mul_le_mul_of_nonneg_right hr
    (le_of_lt (by norm_num [mmQ] : (0 : ℚ) < 35 * mmQ))
  ring_nf at key ⊢
  linarith

theorem tileY0App_sep {r r' : Nat} (h : r < r') : tileY0App r' + cell_h ≤ tileY0App r := by
  unfold tileY0App cell_h a4Height margin_y
  have hr : (r : ℚ) + 1 ≤ (r' : ℚ) := by exact_mod_cast h
  have key := mul_le_mul_of_nonneg_right hr
    (le_of_lt (by norm_num [mmQ] : (0 : ℚ) < 35 * mmQ))
  ring_nf at key ⊢
  linarith

/-- **C9.** In the 3×8 A4 grid with 65mm×35mm cells and the configured
margins, every tile origin (for both the ean_creator.py and app.py vertical
conventions) lies with its whole cell inside the page, and the cells of two
distinct grid positions never overlap. -/
theorem grid_tiles_in_bounds_disjoint (col row : Nat) (hc : col < 3) (hr : row < 8) :
    (0 ≤ tileX0 col ∧ tileX0 col + cell_w ≤ a4Width ∧
     0 ≤ tileY0 row ∧ tileY0 row + cell_h ≤ a4Height ∧
     0 ≤ tileY0App row ∧ tileY0App row + cell_h ≤ a4Height) ∧
    (∀ col' row', col' < 3 → row' < 8 → (col, row) ≠ (col', row') →
      ¬boxesOverlap (tileX0 col) (tileY0 row) (tileX0 col') (tileY0 row')
        cell_w cell_h ∧
      ¬boxesOverlap (tileX0 col) (tileY0App row) (tileX0 col') (tileY0App row')
        cell_w cell_h) := by
  constructor
  · interval_cases col <;> interval_cases row <;>
      norm_num [tileX0, tileY0, tileY0App, a4Width, a4Height, margin_x, margin_y,
        extra_bottom_margin, cell_w, cell_h, mmQ]
  · intro col' row' hc' hr' hne
    have hsplit : col ≠ col' ∨ row ≠ row' := by
      by_cases h1 : col = col'
      · right
        intro h2
        exact hne (by rw [h1, h2])
      · exact Or.inl h1
    constructor
    · rintro ⟨o1, o2, o3, o4⟩
      rcases hsplit with hcc | hrr
      · rcases Nat.lt_or_ge col col' with hlt | hge
        · exact absurd o2 (not_lt.mpr (tileX0_sep hlt))
        · have hlt : col' < col := lt_of_le_of_ne hge (Ne.symm hcc)
          exact absurd o1 (not_lt.mpr (tileX0_sep hlt))
      · rcases Nat.lt_or_ge row row' with hlt | hge
        · exact absurd o3 (not_lt.mpr (tileY0_sep hlt))
        · have hlt : row' < row := lt_of_le_of_ne hge (Ne.symm hrr)
          exact absurd o4 (not_lt.mpr (tileY0_sep hlt))
    · rintro ⟨o1, o2, o3, o4⟩
      rcases hsplit with hcc | hrr
      · rcases Nat.lt_or_ge col col' with hlt | hge
        · exact absurd o2 (not_lt.mpr (tileX0_sep hlt))
        · have hlt : col' < col := lt_of_le_of_ne hge (Ne.symm hcc)
          exact absurd o1 (not_lt.mpr (tileX0_sep hlt))
      · rcases Nat.lt_or_ge row row' with hlt | hge
        · exact absurd o3 (not_lt.mpr (tileY0App_sep hlt))
        · have hlt : row' < row := lt_of_le_of_ne hge (Ne.symm hrr)
          exact absurd o4 (not_lt.mpr (tileY0App_sep hlt))

theorem grid_tiles_in_bounds_disjoint_witness :
    (0 ≤ tileX0 0 ∧ tileX0 0 + cell_w ≤ a4Width ∧
     0 ≤ tileY0 0 ∧ tileY0 0 + cell_h ≤ a4Height ∧
     0 ≤ tileY0App 0 ∧ tileY0App 0 + cell_h ≤ a4Height) ∧
    (¬boxesOverlap (tileX0 0) (tileY0 0) (tileX0 1) (tileY0 0) cell_w cell_h ∧
     ¬boxesOverlap (tileX0 0) (tileY0App 0) (tileX0 1) (tileY0App 0) cell_w cell_h) :=
  ⟨(grid_tiles_in_bounds_disjoint 0 0 (by norm_num) (by norm_num)).1,
   (grid_tiles_in_bounds_disjoint 0 0 (by norm_num) (by norm_num)).2 1 0
     (by norm_num) (by norm_num) (by decide)⟩

end EanTienda
